import Mathlib

/-!
Verification development for the Cookidone recipe browser
(`frontend/src/components/RecipeList.jsx` and the earlier `RecipeList.jsx`
revision kept alongside it). The client-side utility functions
(`parseTimeToMinutes`, `formatTime`, `POPULARITY_STEPS`, `indexToPopularity`,
`getSortValue`, `applyClientSort`), the request construction in `fetchList`,
and the reachable UI state transitions (`changeSort`, pagination buttons,
filter changes) are embedded as executable Lean definitions, and the spec's
claims about them are proved below.
-/

/-! ## Character classes used by the JavaScript regular expressions

`\d` is `[0-9]`; `\w` (for `\b` word boundaries) is `[A-Za-z0-9_]`;
`\s` is the ECMAScript white-space/line-terminator set. -/

def isDigitChar (c : Char) : Bool :=
  48 ≤ c.toNat && c.toNat ≤ 57

def isWordChar (c : Char) : Bool :=
  (48 ≤ c.toNat && c.toNat ≤ 57) || (65 ≤ c.toNat && c.toNat ≤ 90) ||
    (97 ≤ c.toNat && c.toNat ≤ 122) || c.toNat == 95

def isSpaceChar (c : Char) : Bool :=
  let n := c.toNat
  n == 32 || n == 9 || n == 10 || n == 11 || n == 12 || n == 13 ||
    n == 160 || n == 5760 || (8192 ≤ n && n ≤ 8202) || n == 8232 ||
    n == 8233 || n == 8239 || n == 8287 || n == 12288 || n == 65279

/-- ASCII case folding, mirroring the effect of `String(t).toLowerCase()`
on the characters relevant to the duration patterns (digits, ASCII letters,
white space, punctuation); non-ASCII characters are left unchanged. -/
def toLowerChar (c : Char) : Char :=
  if 65 ≤ c.toNat ∧ c.toNat ≤ 90 then Char.ofNat (c.toNat + 32) else c

def lowered (t : String) : List Char :=
  t.data.map toLowerChar

/-- The value of `parseInt(ds, 10)` on a run of decimal digit characters. -/
def digitsToNat (ds : List Char) : Nat :=
  ds.foldl (fun a c => 10 * a + (c.toNat - 48)) 0

/-- Whether `pat` is an initial segment of `cs` (one regex alternative
matching literally at the current position). -/
def startsWith : List Char → List Char → Bool
  | [], _ => true
  | _ :: _, [] => false
  | p :: ps, c :: cs => (p == c) && startsWith ps cs

/-- The `\b` assertion placed directly after a word character: it holds at
end of input or when the next character is not a word character. -/
def bAfterWord (rest : List Char) : Bool :=
  match rest with
  | [] => true
  | c :: _ => !isWordChar c

/-- The `\b` assertion placed directly after a non-word character (the `.`
of the `godz.` alternative): it holds only when the next character is a
word character. -/
def bAfterNonWord (rest : List Char) : Bool :=
  match rest with
  | [] => false
  | c :: _ => isWordChar c

/-- The unit part `(godz|godz\.|h)\b` of the hour regex, tried at the
position right after the digits and white space. -/
def hourUnit (rest : List Char) : Bool :=
  (startsWith ['g', 'o', 'd', 'z'] rest && bAfterWord (rest.drop 4)) ||
    (startsWith ['g', 'o', 'd', 'z', '.'] rest && bAfterNonWord (rest.drop 5)) ||
    (startsWith ['h'] rest && bAfterWord (rest.drop 1))

/-- The unit part `min\b` of the minute regex. -/
def minUnit (rest : List Char) : Bool :=
  startsWith ['m', 'i', 'n'] rest && bAfterWord (rest.drop 3)

/-- One attempt of the pattern `(\d+)\s*<unit>` at the current position:
a maximal run of digits, then white space, then the unit test `u`.
(Backtracking into a shorter digit or space run can never help, because the
character it would re-expose is again a digit or a space, which no unit
alternative can start with.) -/
def matchTokAt (u : List Char → Bool) : List Char → Option Nat
  | [] => none
  | c :: cs =>
    if isDigitChar c then
      if u (((c :: cs).dropWhile isDigitChar).dropWhile isSpaceChar) then
        some (digitsToNat ((c :: cs).takeWhile isDigitChar))
      else none
    else none

/-- Left-to-right scan for the first position where `matchTokAt` succeeds:
the semantics of `String.prototype.match` returning the leftmost match. -/
def findTok (u : List Char → Bool) : List Char → Option Nat
  | [] => none
  | c :: cs =>
    match matchTokAt u (c :: cs) with
    | some n => some n
    | none => findTok u cs

/-- The captured hour quantity of `lower.match(/(\d+)\s*(godz|godz\.|h)\b/)`. -/
def hourTok (t : String) : Option Nat :=
  findTok hourUnit (lowered t)

/-- The captured minute quantity of `lower.match(/(\d+)\s*min\b/)`. -/
def minTok (t : String) : Option Nat :=
  findTok minUnit (lowered t)

/-- The fallback `lower.match(/(\d+)/)`: the first run of digits. -/
def firstIntTok (t : String) : Option Nat :=
  findTok (fun _ => true) (lowered t)

/-- Embedding of `parseTimeToMinutes` from `RecipeList.jsx`: `minutes` starts at 0, the
hour match contributes `h * 60`, the minute match contributes `m`, and when
neither regex matched, the first integer in the string (if any) is used as
the minute value. A falsy (empty) input returns 0. -/
def parseTimeToMinutes (t : String) : Nat :=
  if t = "" then 0
  else
    match hourTok t, minTok t with
    | some h, some m => h * 60 + m
    | some h, none => h * 60
    | none, some m => m
    | none, none => (firstIntTok t).getD 0

/-- The call sites pass `it.totalTime`, which may be absent; `!t` in the
source treats `null`/`undefined` like the empty string. -/
def parseTimeOpt (t : Option String) : Nat :=
  match t with
  | none => 0
  | some s => parseTimeToMinutes s

/-! ## `formatTime` -/

/-- Digits of `n` in base 10, most significant first; the fuel argument
(any bound on `n`) makes the recursion structural. -/
def natDecimalAux : Nat → Nat → List Char
  | 0, _ => []
  | fuel + 1, n =>
    if n = 0 then []
    else natDecimalAux fuel (n / 10) ++ [Char.ofNat (48 + n % 10)]

/-- Decimal numeral of `n`, most significant digit first: the characters
produced by the template-string interpolation of a non-negative integer. -/
def natDecimal (n : Nat) : List Char :=
  if n = 0 then ['0'] else natDecimalAux n n

/-- Embedding of `formatTime` from `RecipeList.jsx`: non-positive (falsy or negative)
minutes render as the placeholder, otherwise hours and minutes are split
off and rendered as in the three template strings. -/
def formatTime (minutes : Int) : String :=
  if minutes ≤ 0 then "—"
  else
    let h := minutes.toNat / 60
    let m := minutes.toNat % 60
    if 0 < h ∧ 0 < m then
      String.mk (natDecimal h ++ 'h' :: ' ' :: (natDecimal m ++ ['m', 'i', 'n']))
    else if 0 < h then String.mk (natDecimal h ++ ['h'])
    else String.mk (natDecimal m ++ ['m', 'i', 'n'])

/-! ## Recipes and the client-side sort
(`getSortValue` / `applyClientSort` from the earlier `RecipeList.jsx`
revision). Ratings move in 0.1 steps, so they are modelled as exact
rationals. -/

structure Recipe where
  id : Nat
  title : String
  rating : ℚ
  numberOfRatings : Nat
  preparationTime : String
  totalTime : String
  language : String
deriving DecidableEq

/-- The four sort fields offered by the sort buttons. -/
inductive SortField where
  | rating
  | numberOfRatings
  | preparationTime
  | totalTime
deriving DecidableEq

/-- Embedding of `getSortValue(it, field)`: an empty field gives 0, the two time fields
are normalized through `parseTimeToMinutes`, the two numeric fields are
used directly (`Number(it[field] ?? 0)`). -/
def getSortValue (it : Recipe) (field : Option SortField) : ℚ :=
  match field with
  | none => 0
  | some SortField.preparationTime => (parseTimeToMinutes it.preparationTime : ℚ)
  | some SortField.totalTime => (parseTimeToMinutes it.totalTime : ℚ)
  | some SortField.rating => it.rating
  | some SortField.numberOfRatings => (it.numberOfRatings : ℚ)

/-- The numeric comparator passed to `copy.sort`: `va - vb`, or `vb - va`
when descending. (Both values are numbers for every offered sort field, so
the `localeCompare` branch is unreachable.) -/
def cmpValue (field : SortField) (desc : Bool) (a b : Recipe) : ℚ :=
  if desc then getSortValue b (some field) - getSortValue a (some field)
  else getSortValue a (some field) - getSortValue b (some field)

/-- The sort call: `Array.prototype.sort` with a consistent comparator `cmp` is required
by the ECMAScript specification to produce the sorted, stable permutation
of its input; insertion sort with the relation `cmp a b ≤ 0` is exactly
that permutation. -/
def jsStableSort (cmp : Recipe → Recipe → ℚ) (l : List Recipe) : List Recipe :=
  @List.insertionSort Recipe (fun a b => cmp a b ≤ 0)
    (fun a b => inferInstanceAs (Decidable (cmp a b ≤ 0))) l

/-- Embedding of `applyClientSort(arr)`: identity when no sort field is set, otherwise
the stable sort of a copy of the array under the numeric comparator. -/
def applyClientSort (sort : Option SortField) (desc : Bool) (arr : List Recipe) :
    List Recipe :=
  match sort with
  | none => arr
  | some f => jsStableSort (cmpValue f desc) arr

/-! ## The client-side rating filter
(`items.filter(it => it.rating >= ratingRange[0] && it.rating <= ratingRange[1])`). -/

def passesRatingFilter (lo hi : ℚ) (it : Recipe) : Bool :=
  decide (lo ≤ it.rating) && decide (it.rating ≤ hi)

def filterByRating (lo hi : ℚ) (items : List Recipe) : List Recipe :=
  items.filter (passesRatingFilter lo hi)

/-! ## The popularity slider scale -/

def POPULARITY_STEPS : List Nat :=
  [0,
   10, 20, 30, 40, 50, 60, 70, 80, 90, 100,
   200, 300, 400, 500, 600, 700, 800, 900, 1000,
   2000, 3000, 4000, 5000, 6000, 7000, 8000, 9000, 10000,
   20000, 30000]

/-- Embedding of `indexToPopularity(index)`: `POPULARITY_STEPS[Math.min(index, length - 1)]`. -/
def indexToPopularity (index : Nat) : Nat :=
  POPULARITY_STEPS.getD (min index (POPULARITY_STEPS.length - 1)) 0

/-- The scale as the spec describes it: 0; 10–100 by 10; 200–1000 by 100;
2000–10000 by 1000; 20000–30000 by 10000. -/
def popularityScaleSpec : List Nat :=
  [0] ++ ((List.range 10).map fun k => 10 * (k + 1))
      ++ ((List.range 9).map fun k => 100 * (k + 2))
      ++ ((List.range 9).map fun k => 1000 * (k + 2))
      ++ [20000, 30000]

/-! ## The language filter -/

/-- The two language toggles held in the `languageFilter` state object. -/
structure LanguageFilter where
  eng : Bool
  pl : Bool
deriving DecidableEq

/-- The list `Object.entries(languageFilter).filter(([, enabled]) => enabled).map(([lang]) => lang)`. -/
def enabledLanguages (f : LanguageFilter) : List String :=
  (if f.eng then ["ENG"] else []) ++ (if f.pl then ["PL"] else [])

/-- The `language` query parameter: set to the single enabled language when
`enabledLanguages.length === 1`, absent otherwise. -/
def languageParam (f : LanguageFilter) : Option String :=
  match enabledLanguages f with
  | [l] => some l
  | _ => none

/-- Modelled from the spec: the server side of the language filter (the
query engine behind `/api/recipes`) is not part of the sources; per the
spec, a recipe passes when no language parameter was sent, and otherwise
exactly when `recipe.language` equals the requested code. -/
def languagePass (langParam : Option String) (r : Recipe) : Bool :=
  match langParam with
  | none => true
  | some l => decide (r.language = l)

/-! ## The reachable UI state and the requests it issues -/

/-- The part of the component state that the claims about issued requests
depend on: current page, sort field and direction, and the random seed. -/
structure UIState where
  page : Nat
  sort : Option SortField
  desc : Bool
  seed : Nat
deriving DecidableEq

/-- The initial component state: `page = 1`, no sort field, ascending,
and a seed drawn once when the component mounts. -/
def initState (s0 : Nat) : UIState :=
  { page := 1, sort := none, desc := false, seed := s0 }

/-- User interactions that change this state: a sort-button click
(`changeSort`, with the freshly drawn seed), the two pagination buttons,
and any filter change (search text, rating, popularity, categories,
languages, ingredients). -/
inductive UIEvent where
  | changeSort (f : SortField) (newSeed : Nat)
  | prevPage
  | nextPage (totalPages : Nat)
  | filterChange
deriving DecidableEq

/-- One state transition. `changeSort` toggles the direction on the active
field or activates a new field descending, and redraws the seed; Previous
clamps at page 1; Next is disabled at `page >= totalPages` and otherwise
clamps at the last page; a filter change resets to page 1. -/
def step (s : UIState) : UIEvent → UIState
  | UIEvent.changeSort f ns =>
    if s.sort = some f then { s with desc := !s.desc, seed := ns }
    else { s with sort := some f, desc := true, seed := ns }
  | UIEvent.prevPage => { s with page := max (s.page - 1) 1 }
  | UIEvent.nextPage tp =>
    if tp ≤ s.page then s else { s with page := min (s.page + 1) tp }
  | UIEvent.filterChange => { s with page := 1 }

def runEvents (s : UIState) (es : List UIEvent) : UIState :=
  es.foldl step s

/-- The states the component can actually be in: the initial state and
everything reachable from it through `step`. -/
inductive Reachable (s0 : Nat) : UIState → Prop
  | init : Reachable s0 (initState s0)
  | step : ∀ s e, Reachable s0 s → Reachable s0 (step s e)

/-- The query parameters of one `fetchList` call that the claims are
about. -/
structure Request where
  page : Nat
  sort : Option SortField
  desc : Bool
  seed : Nat
  randomize : Bool
deriving DecidableEq

/-- The request built by `fetchList(first)`: every parameter echoes the
state, and `randomize` is sent when `first || (!sort && !desc)`. -/
def mkRequest (s : UIState) (first : Bool) : Request :=
  { page := s.page, sort := s.sort, desc := s.desc, seed := s.seed,
    randomize := first || (s.sort.isNone && !s.desc) }

/-- The requests the client issues: the mount-time fetch runs with
`first = true` in the initial state (and flips `firstLoad` off), and every
later fetch runs with `first = false` in some reachable state. -/
inductive Issued (s0 : Nat) : Request → Prop
  | first : Issued s0 (mkRequest (initState s0) true)
  | later : ∀ s, Reachable s0 s → Issued s0 (mkRequest s false)

/-! ## Concrete sample recipes used as witnesses -/

def mkSample (i : Nat) (title tt : String) : Recipe :=
  { id := i, title := title, rating := 4, numberOfRatings := 10,
    preparationTime := "10 min", totalTime := tt, language := "ENG" }

def rec1h20 : Recipe := mkSample 1 "Stew" "1 h 20 min"
def rec45 : Recipe := mkSample 2 "Salad" "45 min"
def rec2h : Recipe := mkSample 3 "Roast" "2 h"

/-- Two recipes that tie on total time, with ascending identifiers. -/
def recTieA : Recipe := mkSample 1 "Soup A" "45 min"
def recTieB : Recipe := mkSample 2 "Soup B" "45 min"

def sampleRecipe : Recipe := mkSample 7 "Omelette" "30 min"

/-! ## Helper lemmas about the scanner -/

theorem toNat_ofNat_valid (n : Nat) (h : n.isValidChar) : (Char.ofNat n).toNat = n := by
  simp [Char.ofNat, h, Char.ofNatAux, Char.toNat, UInt32.toNat, BitVec.toNat_ofNatLt]

theorem isValidChar_of_lt (n : Nat) (h : n < 55296) : n.isValidChar :=
  Or.inl h

theorem toLowerChar_digit (c : Char) :
    isDigitChar (toLowerChar c) = isDigitChar c := by
  unfold toLowerChar
  by_cases h : 65 ≤ c.toNat ∧ c.toNat ≤ 90
  · rw [if_pos h]
    have hv : (c.toNat + 32).isValidChar := isValidChar_of_lt _ (by omega)
    simp only [isDigitChar, toNat_ofNat_valid _ hv]
    have h1 : (48 ≤ c.toNat + 32 && c.toNat + 32 ≤ 57) = false := by
      simp only [Bool.and_eq_false_iff, decide_eq_false_iff_not]
      omega
    have h2 : (48 ≤ c.toNat && c.toNat ≤ 57) = false := by
      simp only [Bool.and_eq_false_iff, decide_eq_false_iff_not]
      omega
    rw [h1, h2]
  · rw [if_neg h]

theorem toLowerChar_eq_self (c : Char) (h : c.toNat < 65 ∨ 90 < c.toNat) :
    toLowerChar c = c := by
  unfold toLowerChar
  rw [if_neg (by omega)]

theorem map_toLowerChar_eq_self (l : List Char)
    (h : ∀ c ∈ l, c.toNat < 65 ∨ 90 < c.toNat) : l.map toLowerChar = l := by
  induction l with
  | nil => rfl
  | cons c cs ih =>
    simp only [List.map_cons, toLowerChar_eq_self c (h c (by simp)),
      ih (fun d hd => h d (by simp [hd]))]

theorem findTok_cons_not_digit (u : List Char → Bool) (c : Char) (cs : List Char)
    (h : isDigitChar c = false) : findTok u (c :: cs) = findTok u cs := by
  simp [findTok, matchTokAt, h]

theorem findTok_none_of_no_digit (u : List Char → Bool) (l : List Char)
    (h : ∀ c ∈ l, isDigitChar c = false) : findTok u l = none := by
  induction l with
  | nil => rfl
  | cons c cs ih =>
    rw [findTok_cons_not_digit u c cs (h c (by simp))]
    exact ih (fun d hd => h d (by simp [hd]))

theorem dropWhile_append_of_all (p : Char → Bool) (l r : List Char)
    (hl : ∀ c ∈ l, p c = true) (hr : ∀ c, r.head? = some c → p c = false) :
    (l ++ r).dropWhile p = r := by
  induction l with
  | nil =>
    cases r with
    | nil => rfl
    | cons c cs => simp [List.dropWhile, hr c rfl]
  | cons d l ih =>
    simp only [List.cons_append, List.dropWhile, hl d (by simp)]
    exact ih (fun c hc => hl c (by simp [hc]))

theorem takeWhile_append_of_all (p : Char → Bool) (l r : List Char)
    (hl : ∀ c ∈ l, p c = true) (hr : ∀ c, r.head? = some c → p c = false) :
    (l ++ r).takeWhile p = l := by
  induction l with
  | nil =>
    cases r with
    | nil => rfl
    | cons c cs => simp [List.takeWhile, hr c rfl]
  | cons d l ih =>
    have ih' := ih (fun c hc => hl c (by simp [hc]))
    simp [List.takeWhile, hl d (by simp), ih']

theorem findTok_cons_none (u : List Char → Bool) (c : Char) (cs : List Char)
    (h : matchTokAt u (c :: cs) = none) : findTok u (c :: cs) = findTok u cs := by
  simp [findTok, h]

theorem findTok_cons_some (u : List Char → Bool) (c : Char) (cs : List Char) (n : Nat)
    (h : matchTokAt u (c :: cs) = some n) : findTok u (c :: cs) = some n := by
  simp [findTok, h]

theorem findTok_append_run_fail (u : List Char → Bool) (ds rest : List Char)
    (hds : ∀ c ∈ ds, isDigitChar c = true)
    (hhead : ∀ c, rest.head? = some c → isDigitChar c = false)
    (hfail : u (rest.dropWhile isSpaceChar) = false) :
    findTok u (ds ++ rest) = findTok u rest := by
  induction ds with
  | nil => rfl
  | cons d ds ih =>
    have hd : isDigitChar d = true := hds d (by simp)
    have hds' : ∀ c ∈ ds, isDigitChar c = true := fun c hc => hds c (by simp [hc])
    have hdrop : ((d :: ds) ++ rest).dropWhile isDigitChar = rest :=
      dropWhile_append_of_all isDigitChar (d :: ds) rest
        (fun c hc => hds c hc) hhead
    have hm : matchTokAt u (d :: (ds ++ rest)) = none := by
      simp only [List.cons_append] at hdrop
      simp [matchTokAt, hd, hdrop, hfail]
    rw [List.cons_append, findTok_cons_none u _ _ hm]
    exact ih hds'

theorem findTok_append_run_success (u : List Char → Bool) (d : Char) (ds rest : List Char)
    (hd : isDigitChar d = true) (hds : ∀ c ∈ ds, isDigitChar c = true)
    (hhead : ∀ c, rest.head? = some c → isDigitChar c = false)
    (hu : u (rest.dropWhile isSpaceChar) = true) :
    findTok u ((d :: ds) ++ rest) = some (digitsToNat (d :: ds)) := by
  have hall : ∀ c ∈ d :: ds, isDigitChar c = true := by
    intro c hc
    rcases List.mem_cons.mp hc with h | h
    · exact h ▸ hd
    · exact hds c h
  have hdrop : ((d :: ds) ++ rest).dropWhile isDigitChar = rest :=
    dropWhile_append_of_all isDigitChar (d :: ds) rest hall hhead
  have htake : ((d :: ds) ++ rest).takeWhile isDigitChar = d :: ds :=
    takeWhile_append_of_all isDigitChar (d :: ds) rest hall hhead
  simp only [List.cons_append] at hdrop htake
  simp [findTok, matchTokAt, hd, hdrop, htake, hu]

/-! ## Decimal numerals round-trip through the digit scanner -/

theorem digitsToNat_append_singleton (l : List Char) (c : Char) :
    digitsToNat (l ++ [c]) = 10 * digitsToNat l + (c.toNat - 48) := by
  simp [digitsToNat, List.foldl_append]

theorem natDecimalAux_spec (fuel : Nat) : ∀ n, n ≤ fuel →
    digitsToNat (natDecimalAux fuel n) = n ∧
      ∀ c ∈ natDecimalAux fuel n, isDigitChar c = true := by
  induction fuel with
  | zero =>
    intro n hn
    have : n = 0 := Nat.le_zero.mp hn
    subst this
    exact ⟨rfl, by simp [natDecimalAux]⟩
  | succ fuel ih =>
    intro n hn
    by_cases h0 : n = 0
    · subst h0
      exact ⟨by simp [natDecimalAux, digitsToNat], by simp [natDecimalAux]⟩
    · have hlt : n / 10 < n := Nat.div_lt_self (Nat.pos_of_ne_zero h0) (by omega)
      have hdiv : n / 10 ≤ fuel := by omega
      obtain ⟨ihval, ihdig⟩ := ih (n / 10) hdiv
      have hmod : n % 10 < 10 := Nat.mod_lt n (by omega)
      have hvalid : (48 + n % 10).isValidChar := isValidChar_of_lt _ (by omega)
      have htn : (Char.ofNat (48 + n % 10)).toNat = 48 + n % 10 :=
        toNat_ofNat_valid _ hvalid
      constructor
      · rw [natDecimalAux, if_neg h0, digitsToNat_append_singleton, ihval, htn]
        omega
      · intro c hc
        rw [natDecimalAux, if_neg h0] at hc
        rcases List.mem_append.mp hc with h | h
        · exact ihdig c h
        · have : c = Char.ofNat (48 + n % 10) := by simpa using h
          subst this
          simp only [isDigitChar, htn]
          simp only [Bool.and_eq_true, decide_eq_true_eq]
          omega

theorem digitsToNat_natDecimal (n : Nat) : digitsToNat (natDecimal n) = n := by
  by_cases h0 : n = 0
  · subst h0
    rfl
  · rw [natDecimal, if_neg h0]
    exact (natDecimalAux_spec n n le_rfl).1

theorem natDecimal_all_digit (n : Nat) :
    ∀ c ∈ natDecimal n, isDigitChar c = true := by
  intro c hc
  by_cases h0 : n = 0
  · subst h0
    have h : c = '0' := by simpa [natDecimal] using hc
    subst h
    rfl
  · rw [natDecimal, if_neg h0] at hc
    exact (natDecimalAux_spec n n le_rfl).2 c hc

theorem natDecimal_ne_nil (n : Nat) : natDecimal n ≠ [] := by
  by_cases h0 : n = 0
  · subst h0
    simp [natDecimal]
  · rw [natDecimal, if_neg h0]
    cases n with
    | zero => exact absurd rfl h0
    | succ m =>
      rw [natDecimalAux, if_neg h0]
      simp

theorem digit_toNat_lt (c : Char) (h : isDigitChar c = true) :
    c.toNat < 65 ∨ 90 < c.toNat := by
  simp only [isDigitChar, Bool.and_eq_true, decide_eq_true_eq] at h
  omega

/-! ## Evaluation of the unit matchers on the shapes `formatTime` emits -/

theorem hourUnit_h_cons (c : Char) (t : List Char) :
    hourUnit ('h' :: c :: t) = !isWordChar c := by
  simp +decide [hourUnit, startsWith, bAfterWord]

theorem hourUnit_h_nil : hourUnit ['h'] = true := by decide

theorem minUnit_of_h (t : List Char) : minUnit ('h' :: t) = false := by
  simp +decide [minUnit, startsWith]

theorem dropWhile_isSpace_h (t : List Char) :
    ('h' :: t).dropWhile isSpaceChar = 'h' :: t := by
  have h : isSpaceChar 'h' = false := by decide
  simp [List.dropWhile, h]

theorem dropWhile_isSpace_min :
    (['m', 'i', 'n'] : List Char).dropWhile isSpaceChar = ['m', 'i', 'n'] := by
  decide

/-! ## Symbolic evaluation of `parseTimeToMinutes` -/

theorem mk_ne_empty (L : List Char) (h : L ≠ []) : String.mk L ≠ "" := by
  intro he
  apply h
  have hd : (String.mk L).data = ("" : String).data := congrArg String.data he
  simpa using hd

theorem lowered_mk (L : List Char) : lowered (String.mk L) = L.map toLowerChar := rfl

theorem parseTime_eval_some_some (t : String) (hne : t ≠ "") (H M : Nat)
    (h1 : hourTok t = some H) (h2 : minTok t = some M) :
    parseTimeToMinutes t = H * 60 + M := by
  rw [parseTimeToMinutes, if_neg hne, h1, h2]

theorem parseTime_eval_some_none (t : String) (hne : t ≠ "") (H : Nat)
    (h1 : hourTok t = some H) (h2 : minTok t = none) :
    parseTimeToMinutes t = H * 60 := by
  rw [parseTimeToMinutes, if_neg hne, h1, h2]

theorem parseTime_eval_none_some (t : String) (hne : t ≠ "") (M : Nat)
    (h1 : hourTok t = none) (h2 : minTok t = some M) :
    parseTimeToMinutes t = M := by
  rw [parseTimeToMinutes, if_neg hne, h1, h2]

theorem parseTime_eval_none_none (t : String) (hne : t ≠ "") (h1 : hourTok t = none)
    (h2 : minTok t = none) : parseTimeToMinutes t = (firstIntTok t).getD 0 := by
  rw [parseTimeToMinutes, if_neg hne, h1, h2]

/-- The characters of the three `formatTime` templates are untouched by
lower-casing. -/
theorem formatChars_lower (h m : Nat) :
    ∀ c ∈ natDecimal h ++ 'h' :: ' ' :: (natDecimal m ++ ['m', 'i', 'n']),
      c.toNat < 65 ∨ 90 < c.toNat := by
  intro c hc
  simp only [List.mem_append, List.mem_cons, List.not_mem_nil, or_false] at hc
  rcases hc with h1 | h1 | h1 | h1 | h1 | h1 | h1
  · exact digit_toNat_lt c (natDecimal_all_digit h c h1)
  · subst h1; decide
  · subst h1; decide
  · exact digit_toNat_lt c (natDecimal_all_digit m c h1)
  · subst h1; decide
  · subst h1; decide
  · subst h1; decide

theorem head_cons_not_digit (a : Char) (t : List Char) (ha : isDigitChar a = false) :
    ∀ c, ((a :: t).head?) = some c → isDigitChar c = false := by
  intro c hc
  rw [List.head?_cons] at hc
  injection hc with hh
  rwa [← hh]

theorem hourTok_shape_hm (h m : Nat) :
    hourTok (String.mk (natDecimal h ++ 'h' :: ' ' :: (natDecimal m ++ ['m', 'i', 'n'])))
      = some h := by
  obtain ⟨d, ds, hcons⟩ := List.exists_cons_of_ne_nil (natDecimal_ne_nil h)
  have hall := natDecimal_all_digit h
  rw [hcons] at hall
  unfold hourTok
  rw [lowered_mk, map_toLowerChar_eq_self _ (formatChars_lower h m), hcons,
    findTok_append_run_success hourUnit d ds _ (hall d (by simp))
      (fun c hc => hall c (by simp [hc]))
      (head_cons_not_digit _ _ (by decide))
      (by rw [dropWhile_isSpace_h, hourUnit_h_cons]; decide),
    ← hcons, digitsToNat_natDecimal]

theorem minTok_shape_hm (h m : Nat) :
    minTok (String.mk (natDecimal h ++ 'h' :: ' ' :: (natDecimal m ++ ['m', 'i', 'n'])))
      = some m := by
  obtain ⟨d, ds, hcons⟩ := List.exists_cons_of_ne_nil (natDecimal_ne_nil m)
  have hallm := natDecimal_all_digit m
  rw [hcons] at hallm
  unfold minTok
  rw [lowered_mk, map_toLowerChar_eq_self _ (formatChars_lower h m)]
  rw [findTok_append_run_fail minUnit (natDecimal h) _ (natDecimal_all_digit h)
    (head_cons_not_digit _ _ (by decide))
    (by rw [dropWhile_isSpace_h, minUnit_of_h])]
  rw [findTok_cons_not_digit minUnit 'h' _ (by decide),
    findTok_cons_not_digit minUnit ' ' _ (by decide), hcons,
    findTok_append_run_success minUnit d ds _ (hallm d (by simp))
      (fun c hc => hallm c (by simp [hc]))
      (head_cons_not_digit _ _ (by decide))
      (by rw [dropWhile_isSpace_min]; decide),
    ← hcons, digitsToNat_natDecimal]

theorem hourTok_shape_h (h : Nat) :
    hourTok (String.mk (natDecimal h ++ ['h'])) = some h := by
  obtain ⟨d, ds, hcons⟩ := List.exists_cons_of_ne_nil (natDecimal_ne_nil h)
  have hall := natDecimal_all_digit h
  rw [hcons] at hall
  unfold hourTok
  rw [lowered_mk, map_toLowerChar_eq_self _ (by
    intro c hc
    simp only [List.mem_append, List.mem_cons, List.not_mem_nil, or_false] at hc
    rcases hc with h1 | h1
    · exact digit_toNat_lt c (natDecimal_all_digit h c h1)
    · subst h1; decide), hcons,
    findTok_append_run_success hourUnit d ds _ (hall d (by simp))
      (fun c hc => hall c (by simp [hc]))
      (head_cons_not_digit _ _ (by decide))
      (by rw [dropWhile_isSpace_h]; exact hourUnit_h_nil),
    ← hcons, digitsToNat_natDecimal]

theorem minTok_shape_h (h : Nat) :
    minTok (String.mk (natDecimal h ++ ['h'])) = none := by
  unfold minTok
  rw [lowered_mk, map_toLowerChar_eq_self _ (by
    intro c hc
    simp only [List.mem_append, List.mem_cons, List.not_mem_nil, or_false] at hc
    rcases hc with h1 | h1
    · exact digit_toNat_lt c (natDecimal_all_digit h c h1)
    · subst h1; decide)]
  rw [findTok_append_run_fail minUnit (natDecimal h) _ (natDecimal_all_digit h)
    (head_cons_not_digit _ _ (by decide))
    (by rw [dropWhile_isSpace_h, minUnit_of_h])]
  decide

theorem hourTok_shape_m (m : Nat) :
    hourTok (String.mk (natDecimal m ++ ['m', 'i', 'n'])) = none := by
  unfold hourTok
  rw [lowered_mk, map_toLowerChar_eq_self _ (by
    intro c hc
    simp only [List.mem_append, List.mem_cons, List.not_mem_nil, or_false] at hc
    rcases hc with h1 | h1 | h1 | h1
    · exact digit_toNat_lt c (natDecimal_all_digit m c h1)
    · subst h1; decide
    · subst h1; decide
    · subst h1; decide)]
  rw [findTok_append_run_fail hourUnit (natDecimal m) _ (natDecimal_all_digit m)
    (head_cons_not_digit _ _ (by decide))
    (by rw [dropWhile_isSpace_min]; decide)]
  decide

theorem minTok_shape_m (m : Nat) :
    minTok (String.mk (natDecimal m ++ ['m', 'i', 'n'])) = some m := by
  obtain ⟨d, ds, hcons⟩ := List.exists_cons_of_ne_nil (natDecimal_ne_nil m)
  have hallm := natDecimal_all_digit m
  rw [hcons] at hallm
  unfold minTok
  rw [lowered_mk, map_toLowerChar_eq_self _ (by
    intro c hc
    simp only [List.mem_append, List.mem_cons, List.not_mem_nil, or_false] at hc
    rcases hc with h1 | h1 | h1 | h1
    · exact digit_toNat_lt c (natDecimal_all_digit m c h1)
    · subst h1; decide
    · subst h1; decide
    · subst h1; decide), hcons,
    findTok_append_run_success minUnit d ds _ (hallm d (by simp))
      (fun c hc => hallm c (by simp [hc]))
      (head_cons_not_digit _ _ (by decide))
      (by rw [dropWhile_isSpace_min]; decide),
    ← hcons, digitsToNat_natDecimal]

theorem append_ne_nil_left {α : Type} (l r : List α) (h : l ≠ []) : l ++ r ≠ [] :=
  fun he => h (List.append_eq_nil.mp he).1

/-! ## `formatTime` case equations -/

theorem formatTime_eq_hm (t : Int) (ht : 0 < t) (hh : 0 < t.toNat / 60)
    (hm : 0 < t.toNat % 60) :
    formatTime t = String.mk
      (natDecimal (t.toNat / 60) ++ 'h' :: ' ' :: (natDecimal (t.toNat % 60) ++ ['m', 'i', 'n'])) := by
  simp only [formatTime, if_neg (show ¬ t ≤ 0 by omega), if_pos (And.intro hh hm)]

theorem formatTime_eq_h (t : Int) (ht : 0 < t) (hh : 0 < t.toNat / 60)
    (hm : ¬ 0 < t.toNat % 60) :
    formatTime t = String.mk (natDecimal (t.toNat / 60) ++ ['h']) := by
  simp only [formatTime, if_neg (show ¬ t ≤ 0 by omega),
    if_neg (show ¬ (0 < t.toNat / 60 ∧ 0 < t.toNat % 60) from fun hc => hm hc.2),
    if_pos hh]

theorem formatTime_eq_m (t : Int) (ht : 0 < t) (hh : ¬ 0 < t.toNat / 60) :
    formatTime t = String.mk (natDecimal (t.toNat % 60) ++ ['m', 'i', 'n']) := by
  simp only [formatTime, if_neg (show ¬ t ≤ 0 by omega),
    if_neg (show ¬ (0 < t.toNat / 60 ∧ 0 < t.toNat % 60) from fun hc => hh hc.1),
    if_neg hh]

/-! ## Stability of the client sort -/

theorem filter_orderedInsert {α : Type} (r : α → α → Prop) [DecidableRel r] (q : α → Bool)
    (x : α) (hx : q x = true → ∀ y, q y = true → r x y) (s : List α) :
    (List.orderedInsert r x s).filter q
      = if q x then x :: s.filter q else s.filter q := by
  induction s with
  | nil =>
    rw [List.orderedInsert_nil]
    simp [List.filter_cons]
  | cons y ys ih =>
    by_cases hr : r x y
    · rw [List.orderedInsert, if_pos hr]
      by_cases hq : q x <;> simp [List.filter_cons, hq]
    · rw [List.orderedInsert, if_neg hr]
      by_cases hqy : q y
      · by_cases hqx : q x
        · exact absurd (hx hqx y hqy) hr
        · simp [List.filter_cons, hqy, hqx, ih]
      · simp [List.filter_cons, hqy, ih]

theorem filter_insertionSort {α : Type} (r : α → α → Prop) [DecidableRel r] (q : α → Bool)
    (h : ∀ x y, q x = true → q y = true → r x y) (l : List α) :
    (List.insertionSort r l).filter q = l.filter q := by
  induction l with
  | nil => rfl
  | cons x l ih =>
    rw [List.insertionSort, filter_orderedInsert r q x (fun hqx y hqy => h x y hqx hqy)]
    by_cases hq : q x <;> simp [List.filter_cons, hq, ih]

/-! ## State machine invariants -/

theorem reachable_sort_desc (s0 : Nat) (s : UIState) (h : Reachable s0 s) :
    s.sort = none → s.desc = false := by
  induction h with
  | init => intro _; rfl
  | step s e _ ih =>
    cases e with
    | changeSort f ns =>
      by_cases hs : s.sort = some f
      · intro hnone
        rw [step, if_pos hs] at hnone ⊢
        exact absurd hnone (by simp [hs])
      · intro hnone
        rw [step, if_neg hs] at hnone
        exact absurd hnone (by simp)
    | prevPage => exact ih
    | nextPage tp =>
      intro hnone
      by_cases htp : tp ≤ s.page
      · rw [step, if_pos htp] at hnone ⊢
        exact ih hnone
      · rw [step, if_neg htp] at hnone ⊢
        exact ih hnone
    | filterChange => exact ih

theorem reachable_page_pos (s0 : Nat) (s : UIState) (h : Reachable s0 s) :
    1 ≤ s.page := by
  induction h with
  | init => exact le_rfl
  | step s e ih ihp =>
    cases e with
    | changeSort f ns =>
      by_cases hs : s.sort = some f
      · rw [step, if_pos hs]; exact ihp
      · rw [step, if_neg hs]; exact ihp
    | prevPage =>
      show 1 ≤ max (s.page - 1) 1
      omega
    | nextPage tp =>
      by_cases htp : tp ≤ s.page
      · rw [step, if_pos htp]; exact ihp
      · rw [step, if_neg htp]
        show 1 ≤ min (s.page + 1) tp
        omega
    | filterChange => rw [step]

theorem seed_frame_step (s : UIState) (e : UIEvent)
    (hne : ∀ f ns, e ≠ UIEvent.changeSort f ns) : (step s e).seed = s.seed := by
  cases e with
  | changeSort f ns => exact absurd rfl (hne f ns)
  | prevPage => rfl
  | nextPage tp =>
    by_cases htp : tp ≤ s.page
    · rw [step, if_pos htp]
    · rw [step, if_neg htp]
  | filterChange => rfl

theorem seed_frame_run (s : UIState) (es : List UIEvent)
    (hno : ∀ e ∈ es, ∀ f ns, e ≠ UIEvent.changeSort f ns) :
    (runEvents s es).seed = s.seed := by
  induction es generalizing s with
  | nil => rfl
  | cons e es ih =>
    rw [runEvents, List.foldl_cons]
    rw [show List.foldl step (step s e) es = runEvents (step s e) es from rfl]
    rw [ih (step s e) (fun e' he' => hno e' (by simp [he']))]
    exact seed_frame_step s e (hno e (by simp))

/-! ## The claims -/

/-- C1: for every duration string, `parseTimeToMinutes` returns `60*H + M`
when the string carries an hour-quantity token `H` (unit `h` or the
localized abbreviation `godz`) and/or a minute-quantity token `M`
(unit `min`), summing whichever of the two are present; when neither
pattern matches it returns the first integer found, interpreted as
minutes; and it returns 0 for a string containing no digits and for an
empty or absent input. -/
theorem C1_time_normalization (t : String) :
    (∀ H M, hourTok t = some H → minTok t = some M →
      parseTimeToMinutes t = 60 * H + M)
  ∧ (∀ H, hourTok t = some H → minTok t = none → parseTimeToMinutes t = 60 * H)
  ∧ (∀ M, hourTok t = none → minTok t = some M → parseTimeToMinutes t = M)
  ∧ (∀ n, hourTok t = none → minTok t = none → firstIntTok t = some n →
      parseTimeToMinutes t = n)
  ∧ ((∀ c ∈ t.data, isDigitChar c = false) → parseTimeToMinutes t = 0)
  ∧ parseTimeToMinutes "" = 0 ∧ parseTimeOpt none = 0 := by
  by_cases hne : t = ""
  · subst hne
    exact ⟨fun H M h1 _ => Option.noConfusion h1, fun H h1 _ => Option.noConfusion h1,
      fun M _ h2 => Option.noConfusion h2, fun n _ _ h3 => Option.noConfusion h3,
      fun _ => rfl, rfl, rfl⟩
  · refine ⟨?_, ?_, ?_, ?_, ?_, rfl, rfl⟩
    · intro H M h1 h2
      rw [parseTime_eval_some_some t hne H M h1 h2]
      ring
    · intro H h1 h2
      rw [parseTime_eval_some_none t hne H h1 h2]
      ring
    · exact fun M h1 h2 => parseTime_eval_none_some t hne M h1 h2
    · intro n h1 h2 h3
      rw [parseTime_eval_none_none t hne h1 h2, h3]
      rfl
    · intro hnod
      have hlow : ∀ c ∈ lowered t, isDigitChar c = false := by
        intro c hc
        rcases List.mem_map.mp hc with ⟨d, hd, hdc⟩
        rw [← hdc, toLowerChar_digit]
        exact hnod d hd
      rw [parseTime_eval_none_none t hne
        (findTok_none_of_no_digit hourUnit (lowered t) hlow)
        (findTok_none_of_no_digit minUnit (lowered t) hlow)]
      rw [show firstIntTok t = none from
        findTok_none_of_no_digit (fun _ => true) (lowered t) hlow]
      rfl

/-- Witness for C1: "2 godz 5 min" parses to 125 through the first case,
and a digit-free string parses to 0 through the last case. -/
theorem C1_time_normalization_witness :
    parseTimeToMinutes "2 godz 5 min" = 60 * 2 + 5 ∧ parseTimeToMinutes "ab c" = 0 :=
  ⟨(C1_time_normalization "2 godz 5 min").1 2 5 (by decide) (by decide),
   (C1_time_normalization "ab c").2.2.2.2.1 (by decide)⟩

/-- C2: the inputs "1 h 20 min", "45 min", "2 h" normalize to 80, 45 and
120 (the multiset {45, 80, 120}), and sorting the three recipes by
`totalTime` ascending returns them in the order "45 min", "1 h 20 min",
"2 h". -/
theorem C2_total_time_sort_example :
    parseTimeToMinutes "1 h 20 min" = 80 ∧ parseTimeToMinutes "45 min" = 45 ∧
    parseTimeToMinutes "2 h" = 120 ∧
    applyClientSort (some SortField.totalTime) false [rec1h20, rec45, rec2h]
      = [rec45, rec1h20, rec2h] := by
  refine ⟨by decide, by decide, by decide, ?_⟩
  have v1 : getSortValue rec1h20 (some SortField.totalTime) = 80 := by
    show ((parseTimeToMinutes "1 h 20 min" : Nat) : ℚ) = 80
    rw [show parseTimeToMinutes "1 h 20 min" = 80 from by decide]
    norm_num
  have v2 : getSortValue rec45 (some SortField.totalTime) = 45 := by
    show ((parseTimeToMinutes "45 min" : Nat) : ℚ) = 45
    rw [show parseTimeToMinutes "45 min" = 45 from by decide]
    norm_num
  have v3 : getSortValue rec2h (some SortField.totalTime) = 120 := by
    show ((parseTimeToMinutes "2 h" : Nat) : ℚ) = 120
    rw [show parseTimeToMinutes "2 h" = 120 from by decide]
    norm_num
  have hbc : cmpValue SortField.totalTime false rec45 rec2h ≤ 0 := by
    show getSortValue rec45 (some SortField.totalTime)
        - getSortValue rec2h (some SortField.totalTime) ≤ 0
    rw [v2, v3]
    norm_num
  have hab : ¬ cmpValue SortField.totalTime false rec1h20 rec45 ≤ 0 := by
    show ¬ (getSortValue rec1h20 (some SortField.totalTime)
        - getSortValue rec45 (some SortField.totalTime) ≤ 0)
    rw [v1, v2]
    norm_num
  have hac : cmpValue SortField.totalTime false rec1h20 rec2h ≤ 0 := by
    show getSortValue rec1h20 (some SortField.totalTime)
        - getSortValue rec2h (some SortField.totalTime) ≤ 0
    rw [v1, v3]
    norm_num
  show List.insertionSort _ [rec1h20, rec45, rec2h] = [rec45, rec1h20, rec2h]
  simp only [List.insertionSort]
  rw [List.orderedInsert_nil]
  rw [List.orderedInsert, if_pos hbc]
  rw [List.orderedInsert, if_neg hab]
  rw [List.orderedInsert, if_pos hac]

/-- C3 fails on the code: `applyClientSort` has no identifier tie-break.
Two recipes with equal `totalTime` and ascending ids, presented in
descending-id order, come back in input order (ids descending), and the
two input permutations produce different outputs. -/
theorem C3_tie_break_counterexample :
    getSortValue recTieA (some SortField.totalTime)
      = getSortValue recTieB (some SortField.totalTime)
  ∧ recTieA.id < recTieB.id
  ∧ applyClientSort (some SortField.totalTime) false [recTieB, recTieA]
      = [recTieB, recTieA]
  ∧ applyClientSort (some SortField.totalTime) false [recTieB, recTieA]
      ≠ applyClientSort (some SortField.totalTime) false [recTieA, recTieB] := by
  have vA : getSortValue recTieA (some SortField.totalTime) = 45 := by
    show ((parseTimeToMinutes "45 min" : Nat) : ℚ) = 45
    rw [show parseTimeToMinutes "45 min" = 45 from by decide]
    norm_num
  have vB : getSortValue recTieB (some SortField.totalTime) = 45 := by
    show ((parseTimeToMinutes "45 min" : Nat) : ℚ) = 45
    rw [show parseTimeToMinutes "45 min" = 45 from by decide]
    norm_num
  have hba : cmpValue SortField.totalTime false recTieB recTieA ≤ 0 := by
    show getSortValue recTieB (some SortField.totalTime)
        - getSortValue recTieA (some SortField.totalTime) ≤ 0
    rw [vA, vB]
    norm_num
  have hab : cmpValue SortField.totalTime false recTieA recTieB ≤ 0 := by
    show getSortValue recTieA (some SortField.totalTime)
        - getSortValue recTieB (some SortField.totalTime) ≤ 0
    rw [vA, vB]
    norm_num
  have sortBA : applyClientSort (some SortField.totalTime) false [recTieB, recTieA]
      = [recTieB, recTieA] := by
    simp only [applyClientSort, jsStableSort, List.insertionSort]
    rw [List.orderedInsert_nil, List.orderedInsert, if_pos hba]
  have sortAB : applyClientSort (some SortField.totalTime) false [recTieA, recTieB]
      = [recTieA, recTieB] := by
    simp only [applyClientSort, jsStableSort, List.insertionSort]
    rw [List.orderedInsert_nil, List.orderedInsert, if_pos hab]
  refine ⟨vA.trans vB.symm, by decide, sortBA, ?_⟩
  rw [sortBA, sortAB]
  intro he
  rw [List.cons.injEq] at he
  exact (by decide : ¬ ("Soup B" = "Soup A")) (congrArg Recipe.title he.1)

/-- C3 amended: when an explicit sort field is requested, recipes with
equal primary sort values keep their relative input order (the client-side
sort is stable); the output order of tied recipes therefore depends on the
input order, not on the recipe identifier. -/
theorem C3_equal_values_keep_input_order (f : SortField) (d : Bool) (l : List Recipe)
    (v : ℚ) :
    (applyClientSort (some f) d l).filter
        (fun r => decide (getSortValue r (some f) = v))
      = l.filter (fun r => decide (getSortValue r (some f) = v)) := by
  show (List.insertionSort _ l).filter _ = _
  apply filter_insertionSort
  intro x y hqx hqy
  simp only [decide_eq_true_eq] at hqx hqy
  show cmpValue f d x y ≤ 0
  cases d
  · show getSortValue x (some f) - getSortValue y (some f) ≤ 0
    rw [hqx, hqy, sub_self]
  · show getSortValue y (some f) - getSortValue x (some f) ≤ 0
    rw [hqx, hqy, sub_self]

/-- C4: the request carries a language restriction exactly when one
language toggle is enabled, and an absent restriction passes every
recipe. -/
theorem C4_language_filter (f : LanguageFilter) (r : Recipe) :
    (∀ l, enabledLanguages f = [l] →
      languageParam f = some l
        ∧ languagePass (languageParam f) r = decide (r.language = l))
  ∧ ((enabledLanguages f).length ≠ 1 →
      languageParam f = none ∧ languagePass (languageParam f) r = true) := by
  rcases f with ⟨e, p⟩
  cases e <;> cases p
  · exact ⟨fun l h => List.noConfusion h, fun _ => ⟨rfl, rfl⟩⟩
  · refine ⟨fun l h => ?_, fun hlen => absurd rfl hlen⟩
    injection h with h1 _
    subst h1
    exact ⟨rfl, rfl⟩
  · refine ⟨fun l h => ?_, fun hlen => absurd rfl hlen⟩
    injection h with h1 _
    subst h1
    exact ⟨rfl, rfl⟩
  · refine ⟨fun l h => ?_, fun _ => ⟨rfl, rfl⟩⟩
    injection h with _ h2
    exact List.noConfusion h2

/-- Witness for C4: with only English enabled the parameter is "ENG" and
the pass test compares the recipe language; with both enabled no parameter
is sent and every recipe passes. -/
theorem C4_language_filter_witness :
    (languageParam { eng := true, pl := false } = some "ENG"
      ∧ languagePass (languageParam { eng := true, pl := false }) sampleRecipe
          = decide (sampleRecipe.language = "ENG"))
  ∧ (languageParam { eng := true, pl := true } = none
      ∧ languagePass (languageParam { eng := true, pl := true }) sampleRecipe = true) :=
  ⟨(C4_language_filter ⟨true, false⟩ sampleRecipe).1 "ENG" rfl,
   (C4_language_filter ⟨true, true⟩ sampleRecipe).2 (by decide)⟩

/-- C5: every request the client issues asks for the randomized ordering
exactly when no sort field is set. -/
theorem C5_randomize_iff_no_sort (s0 : Nat) (r : Request) (h : Issued s0 r) :
    r.randomize = true ↔ r.sort = none := by
  cases h with
  | first => simp [mkRequest, initState]
  | later s hs =>
    show (false || (s.sort.isNone && !s.desc)) = true ↔ s.sort = none
    rw [Bool.false_or]
    constructor
    · intro hr
      simp only [Bool.and_eq_true] at hr
      exact Option.isNone_iff_eq_none.mp hr.1
    · intro hn
      rw [hn, reachable_sort_desc s0 s hs hn]
      rfl

/-- Witness for C5 at the mount-time request of a session seeded with 7. -/
theorem C5_randomize_iff_no_sort_witness :
    (mkRequest (initState 7) true).randomize = true
      ↔ (mkRequest (initState 7) true).sort = none :=
  C5_randomize_iff_no_sort 7 (mkRequest (initState 7) true) Issued.first

/-- C6: the rating filter keeps a recipe exactly when its rating lies
within the inclusive bounds `[a, b]`; both boundary values pass. -/
theorem C6_rating_bounds_inclusive (a b : ℚ) (r : Recipe) (items : List Recipe) :
    r ∈ filterByRating a b items ↔ r ∈ items ∧ (a ≤ r.rating ∧ r.rating ≤ b) := by
  unfold filterByRating
  rw [List.mem_filter]
  constructor
  · rintro ⟨hm, hp⟩
    refine ⟨hm, ?_⟩
    simpa [passesRatingFilter] using hp
  · rintro ⟨hm, h1, h2⟩
    exact ⟨hm, by simp [passesRatingFilter, h1, h2]⟩

/-- C7: the popularity scale is exactly 0; 10–100 by 10; 200–1000 by 100;
2000–10000 by 1000; 20000 and 30000, and the index-to-value map returns
the i-th scale value, clamping to the maximum 30000 beyond the end. -/
theorem C7_popularity_scale :
    POPULARITY_STEPS = popularityScaleSpec
  ∧ (∀ i, i < popularityScaleSpec.length →
      indexToPopularity i = popularityScaleSpec.getD i 0)
  ∧ (∀ i, popularityScaleSpec.length ≤ i → indexToPopularity i = 30000) := by
  have hsteps : POPULARITY_STEPS = popularityScaleSpec := by decide
  refine ⟨hsteps, ?_, ?_⟩
  · intro i hi
    unfold indexToPopularity
    rw [hsteps]
    have hlen : popularityScaleSpec.length = 31 := by decide
    rw [hlen] at hi ⊢
    rw [show min i (31 - 1) = i from by omega]
  · intro i hi
    unfold indexToPopularity
    rw [hsteps]
    have hlen : popularityScaleSpec.length = 31 := by decide
    rw [hlen] at hi ⊢
    rw [show min i (31 - 1) = 30 from by omega]
    decide

/-- Witness for C7: index 5 maps to the 5th scale value (50), index 40 is
beyond the end and maps to 30000. -/
theorem C7_popularity_scale_witness :
    (5 : Nat) < popularityScaleSpec.length
  ∧ indexToPopularity 5 = popularityScaleSpec.getD 5 0
  ∧ popularityScaleSpec.length ≤ 40
  ∧ indexToPopularity 40 = 30000 :=
  ⟨by decide, C7_popularity_scale.2.1 5 (by decide), by decide,
   C7_popularity_scale.2.2 40 (by decide)⟩

/-- C8: parsing the display string of `formatTime` recovers the minute
count exactly for every positive number of minutes, and a non-positive
input renders as the placeholder, which parses back to 0. -/
theorem C8_format_parse_round_trip (t : Int) :
    (1 ≤ t → parseTimeToMinutes (formatTime t) = t.toNat)
  ∧ (t ≤ 0 → formatTime t = "—" ∧ parseTimeToMinutes (formatTime t) = 0) := by
  constructor
  · intro ht
    have ht0 : 0 < t := by omega
    by_cases hh : 0 < t.toNat / 60
    · by_cases hm : 0 < t.toNat % 60
      · rw [formatTime_eq_hm t ht0 hh hm,
          parseTime_eval_some_some _
            (mk_ne_empty _ (append_ne_nil_left _ _ (natDecimal_ne_nil _))) _ _
            (hourTok_shape_hm _ _) (minTok_shape_hm _ _)]
        omega
      · rw [formatTime_eq_h t ht0 hh hm,
          parseTime_eval_some_none _
            (mk_ne_empty _ (append_ne_nil_left _ _ (natDecimal_ne_nil _))) _
            (hourTok_shape_h _) (minTok_shape_h _)]
        omega
    · rw [formatTime_eq_m t ht0 hh,
        parseTime_eval_none_some _
          (mk_ne_empty _ (append_ne_nil_left _ _ (natDecimal_ne_nil _))) _
          (hourTok_shape_m _) (minTok_shape_m _)]
      omega
  · intro ht
    have hf : formatTime t = "—" := by rw [formatTime, if_pos ht]
    exact ⟨hf, by rw [hf]; decide⟩

/-- Witness for C8 at 90 minutes ("1h 30min") and at the non-positive
input -5. -/
theorem C8_format_parse_round_trip_witness :
    parseTimeToMinutes (formatTime 90) = (90 : Int).toNat
  ∧ (formatTime (-5) = "—" ∧ parseTimeToMinutes (formatTime (-5)) = 0) :=
  ⟨(C8_format_parse_round_trip 90).1 (by decide),
   (C8_format_parse_round_trip (-5)).2 (by decide)⟩

/-- C9: the seed is left unchanged by any run of page-navigation and
filter-change events, every request built in the resulting state still
carries the original seed, and only `changeSort` installs a new seed. -/
theorem C9_seed_per_session (s : UIState) (es : List UIEvent)
    (hno : ∀ e ∈ es, ∀ f ns, e ≠ UIEvent.changeSort f ns) :
    (runEvents s es).seed = s.seed
  ∧ (∀ first, (mkRequest (runEvents s es) first).seed = s.seed)
  ∧ (∀ f ns, (step s (UIEvent.changeSort f ns)).seed = ns) := by
  have h1 := seed_frame_run s es hno
  refine ⟨h1, fun _ => h1, fun f ns => ?_⟩
  by_cases hs : s.sort = some f
  · rw [step, if_pos hs]
  · rw [step, if_neg hs]

/-- Witness for C9: a Previous click, a filter change and a Next click
leave the mount-time seed 5 in place. -/
theorem C9_seed_per_session_witness :
    (runEvents (initState 5)
      [UIEvent.prevPage, UIEvent.filterChange, UIEvent.nextPage 3]).seed
      = (initState 5).seed :=
  (C9_seed_per_session (initState 5)
    [UIEvent.prevPage, UIEvent.filterChange, UIEvent.nextPage 3]
    (by intro e he f ns; fin_cases he <;> simp)).1

/-- C10: in every reachable client state the page is at least 1, so no
request is issued with a page number below 1. -/
theorem C10_page_never_below_one (s0 : Nat) (s : UIState) (h : Reachable s0 s)
    (first : Bool) : 1 ≤ s.page ∧ 1 ≤ (mkRequest s first).page :=
  ⟨reachable_page_pos s0 s h, reachable_page_pos s0 s h⟩

/-- Witness for C10 after a Previous click at page 1 followed by a Next
click with no results (`totalPages = 0`). -/
theorem C10_page_never_below_one_witness :
    1 ≤ (step (step (initState 3) UIEvent.prevPage) (UIEvent.nextPage 0)).page :=
  (C10_page_never_below_one 3 _
    (Reachable.step _ _ (Reachable.step _ _ Reachable.init)) true).1
